import Mathlib

/-!
Shallow embedding of the CHIP-8 interpreter core (`src/chip8.rs`) and
verification of its specification claims.

Modelling conventions:
* Machine integers (`u8`, `u16`) are `Nat` with explicit wrap-around
  (`% 256`, `% 65536`) exactly where the Rust arithmetic wraps.
* The fixed arrays `mem : [u8; 4096]`, `reg : [u8; 16]`,
  `video : [bool; 2048]`, `keypad : [bool; 16]` are functions `Nat → Nat`
  (resp. `Nat → Bool`); Rust's bounds-checked indexing is modelled by an
  explicit range test wherever the index is not statically in range, with
  a failed test mapped to the `panic` outcome (a Rust index-out-of-bounds
  panic aborts the process; it is distinct from returning `Err`).
* The return-address stack is Rust's `Vec<u16>`; we model it as a `List Nat`
  whose head is the top of the stack (`push` = cons, `pop` = head/tail).
* The injected random source `rng: fn() -> u8` is modelled as a fixed byte
  (only the masked-random instruction consults it; no claim depends on it).
-/

namespace Chip8Verif

/-- `VIDEO_WIDTH` from the source. -/
def VIDEO_WIDTH : Nat := 64

/-- `VIDEO_HEIGHT` from the source. -/
def VIDEO_HEIGHT : Nat := 32

/-- `MEMORY_SIZE` from the source. -/
def MEMORY_SIZE : Nat := 4096

/-- `MEMORY_START` from the source. -/
def MEMORY_START : Nat := 0x200

/-- `NUM_KEYS` from the source. -/
def NUM_KEYS : Nat := 16

/-- `NUM_REGS` from the source. -/
def NUM_REGS : Nat := 16

/-- The error enum `Chip8Error` from the source; the only variant is
`InvalidInstruction(u16)`. -/
inductive Chip8Error where
  | InvalidInstruction : Nat → Chip8Error
  deriving DecidableEq, Repr

/-- The machine state `struct Chip8` from the source. -/
structure Chip8 where
  mem : Nat → Nat
  reg : Nat → Nat
  i : Nat
  pc : Nat
  stack : List Nat
  video : Nat → Bool
  keypad : Nat → Bool
  dt : Nat
  st : Nat
  rng : Nat

/-- The decoded-instruction enum `Opcode` from the source. -/
inductive Opcode where
  | ClearScreen
  | Return
  | Jump : Nat → Opcode
  | Call : Nat → Opcode
  | SkipEqualByte : Nat → Nat → Opcode
  | SkipNotEqualByte : Nat → Nat → Opcode
  | SkipEqual : Nat → Nat → Opcode
  | LoadByte : Nat → Nat → Opcode
  | AddByte : Nat → Nat → Opcode
  | Load : Nat → Nat → Opcode
  | Add : Nat → Nat → Opcode
  | Or : Nat → Nat → Opcode
  | And : Nat → Nat → Opcode
  | Xor : Nat → Nat → Opcode
  | Sub : Nat → Nat → Opcode
  | SubN : Nat → Nat → Opcode
  | ShiftRight : Nat → Opcode
  | ShiftLeft : Nat → Opcode
  | SkipNotEqual : Nat → Nat → Opcode
  | LoadI : Nat → Opcode
  | JumpV0 : Nat → Opcode
  | Random : Nat → Nat → Opcode
  | Draw : Nat → Nat → Nat → Opcode
  | SkipKeyPress : Nat → Opcode
  | SkipKeyNotPress : Nat → Opcode
  | LoadDelayTimer : Nat → Opcode
  | LoadKeyPress : Nat → Opcode
  | LoadDelayTimerSet : Nat → Opcode
  | LoadSoundTimer : Nat → Opcode
  | AddI : Nat → Opcode
  | LoadFont : Nat → Opcode
  | LoadBCD : Nat → Opcode
  | StoreRegisters : Nat → Opcode
  | LoadRegisters : Nat → Opcode
  | Invalid : Nat → Opcode
  deriving DecidableEq, Repr

/-- `Chip8::decode_opcode`, translated field-for-field from the source. -/
def decode_opcode (op : Nat) : Opcode :=
  let b1 := (op &&& 0xF000) >>> 12
  let x := (op &&& 0x0F00) >>> 8
  let y := (op &&& 0x00F0) >>> 4
  let nnn := op &&& 0x0FFF
  let nn := op &&& 0x00FF
  let n := op &&& 0x000F
  match b1 with
  | 0x0 =>
    match nnn with
    | 0x00E0 => Opcode.ClearScreen
    | 0x00EE => Opcode.Return
    | _ => Opcode.Invalid op
  | 0x1 => Opcode.Jump nnn
  | 0x2 => Opcode.Call nnn
  | 0x3 => Opcode.SkipEqualByte x nn
  | 0x4 => Opcode.SkipNotEqualByte x nn
  | 0x5 => Opcode.SkipEqual x y
  | 0x6 => Opcode.LoadByte x nn
  | 0x7 => Opcode.AddByte x nn
  | 0x8 =>
    match n with
    | 0x0 => Opcode.Load x y
    | 0x1 => Opcode.Or x y
    | 0x2 => Opcode.And x y
    | 0x3 => Opcode.Xor x y
    | 0x4 => Opcode.Add x y
    | 0x5 => Opcode.Sub x y
    | 0x6 => Opcode.ShiftRight x
    | 0x7 => Opcode.SubN x y
    | 0xE => Opcode.ShiftLeft x
    | _ => Opcode.Invalid op
  | 0x9 => Opcode.SkipNotEqual x y
  | 0xA => Opcode.LoadI nnn
  | 0xB => Opcode.JumpV0 nnn
  | 0xC => Opcode.Random x nn
  | 0xD => Opcode.Draw x y n
  | 0xE =>
    match nn with
    | 0x9E => Opcode.SkipKeyPress x
    | 0xA1 => Opcode.SkipKeyNotPress x
    | _ => Opcode.Invalid op
  | 0xF =>
    match nn with
    | 0x07 => Opcode.LoadDelayTimer x
    | 0x0A => Opcode.LoadKeyPress x
    | 0x15 => Opcode.LoadDelayTimerSet x
    | 0x18 => Opcode.LoadSoundTimer x
    | 0x1E => Opcode.AddI x
    | 0x29 => Opcode.LoadFont x
    | 0x33 => Opcode.LoadBCD x
    | 0x55 => Opcode.StoreRegisters x
    | 0x65 => Opcode.LoadRegisters x
    | _ => Opcode.Invalid op
  | _ => Opcode.Invalid op

/-- Modelled from the spec (section 4.1 dispatch table): an instruction word
matches a recognized form when its group nibble selects a form directly
(groups 1-7 and 9-D need no second-level dispatch, so in particular every
group-5 and group-9 word is a register-comparison skip form), or its group
is one of 0, 8, E, F and the second-level selector (low 12 bits, low
nibble, or low byte respectively) matches one of the listed sub-forms. -/
def recognizedSpec (op : Nat) : Bool :=
  let b1 := (op &&& 0xF000) >>> 12
  let nnn := op &&& 0x0FFF
  let nn := op &&& 0x00FF
  let n := op &&& 0x000F
  match b1 with
  | 0x0 => nnn == 0x0E0 || nnn == 0x0EE
  | 0x1 | 0x2 | 0x3 | 0x4 | 0x5 | 0x6 | 0x7 => true
  | 0x8 => n ≤ 0x7 || n == 0xE
  | 0x9 | 0xA | 0xB | 0xC | 0xD => true
  | 0xE => nn == 0x9E || nn == 0xA1
  | 0xF =>
    nn == 0x07 || nn == 0x0A || nn == 0x15 || nn == 0x18 || nn == 0x1E ||
    nn == 0x29 || nn == 0x33 || nn == 0x55 || nn == 0x65
  | _ => false

/-- `FONTSET_START_ADDRESS` from the source. -/
def FONTSET_START_ADDRESS : Nat := 0x50

/-- Pointwise update of a function-modelled array: `upd f i v` is the array
`f` with cell `i` overwritten by `v`. -/
def upd {α : Type} (f : Nat → α) (i : Nat) (v : α) : Nat → α :=
  fun j => if j = i then v else f j

/-- `Chip8::fetch_opcode`: the big-endian 16-bit word read from `mem[pc]`
and `mem[pc + 1]`.  Rust's array indexing is bounds-checked and panics when
an index is outside `[0, 4096)`; that panic is modelled as `none`.  The
`pc + 1` addition is `u16` arithmetic, hence the `% 65536`. -/
def fetch_opcode (s : Chip8) : Option Nat :=
  if s.pc < MEMORY_SIZE ∧ (s.pc + 1) % 65536 < MEMORY_SIZE then
    some (s.mem s.pc <<< 8 ||| s.mem ((s.pc + 1) % 65536))
  else none

/-- The scan `self.keypad.iter().position(|&key| key)` starting at index `k`
with `fuel` entries left to inspect. -/
def positionGo (kp : Nat → Bool) (k : Nat) : Nat → Option Nat
  | 0 => none
  | fuel + 1 => if kp k then some k else positionGo kp (k + 1) fuel

/-- `self.keypad.iter().position(|&key| key)`: the index of the
lowest-indexed pressed key, if any. -/
def firstPressed (kp : Nat → Bool) : Option Nat :=
  positionGo kp 0 NUM_KEYS

/-- The inner `for dx in 0..8u16` loop of the `Opcode::Draw` arm of
`Chip8::cycle`.  `dx` is the current column, `fuel` the remaining
iterations; the accumulator carries the collision flag that the arm stores
in `VF` (already reset to `0` before the loops) and the framebuffer. -/
def drawCols (sprite vx vy dy : Nat) : Nat → Nat → Nat × (Nat → Bool) → Nat × (Nat → Bool)
  | _, 0, acc => acc
  | dx, fuel + 1, (vf, vid) =>
    let xp := (vx + dx) % VIDEO_WIDTH
    let yp := (vy + dy) % VIDEO_HEIGHT
    let sprite_pixel := sprite &&& (0b10000000 >>> dx)
    let idx := yp * VIDEO_WIDTH + xp
    if sprite_pixel ≠ 0 then
      drawCols sprite vx vy dy (dx + 1) fuel
        ((if vid idx then 1 else vf), upd vid idx (xor (vid idx) true))
    else
      drawCols sprite vx vy dy (dx + 1) fuel (vf, vid)

/-- The outer `for dy in 0..height` loop of the `Opcode::Draw` arm.  Each
row reads the sprite byte `self.mem[(self.i + dy) as usize]` (`u16`
addition, bounds-checked indexing: `none` models the out-of-range panic). -/
def drawRows (mem : Nat → Nat) (i vx vy : Nat) :
    Nat → Nat → Nat × (Nat → Bool) → Option (Nat × (Nat → Bool))
  | _, 0, acc => some acc
  | dy, fuel + 1, acc =>
    let addr := (i + dy) % 65536
    if addr < MEMORY_SIZE then
      drawRows mem i vx vy (dy + 1) fuel (drawCols (mem addr) vx vy dy 0 8 acc)
    else none

/-- The `for v in 0..=x { self.mem[self.i as usize + v] = self.reg[v] }`
loop of the `Opcode::StoreRegisters` arm (`usize` addition, bounds-checked
write; `none` models the panic).  `v` counts up, `fuel` iterations remain. -/
def storeRegsGo (reg : Nat → Nat) (i : Nat) : (Nat → Nat) → Nat → Nat → Option (Nat → Nat)
  | mem, _, 0 => some mem
  | mem, v, fuel + 1 =>
    if i + v < MEMORY_SIZE then storeRegsGo reg i (upd mem (i + v) (reg v)) (v + 1) fuel
    else none

/-- The `for v in 0..=x { self.reg[v] = self.mem[self.i as usize + v] }`
loop of the `Opcode::LoadRegisters` arm. -/
def loadRegsGo (mem : Nat → Nat) (i : Nat) : (Nat → Nat) → Nat → Nat → Option (Nat → Nat)
  | reg, _, 0 => some reg
  | reg, v, fuel + 1 =>
    if i + v < MEMORY_SIZE then loadRegsGo mem i (upd reg v (mem (i + v))) (v + 1) fuel
    else none

/-- Outcome of one call to `Chip8::cycle`.  Rust mutates `self` in place
and returns `Result<(), Chip8Error>`, so both the `Ok` and the `Err` return
leave a machine state visible to the caller; a Rust panic (failed
bounds check, arithmetic check, or `unwrap` of `None`) aborts the process
instead and carries no state. -/
inductive CycleResult where
  | ok : Chip8 → CycleResult
  | err : Chip8Error → Chip8 → CycleResult
  | panic : CycleResult

/-- The `match opcode { ... }` block of `Chip8::cycle`, applied to the
state in which `pc` has already been advanced past the fetched word.
`raw` is `raw_opcode`, consumed by the `Invalid` arm's error value.
`u8`/`u16` arithmetic wraps (`% 256` / `% 65536`) exactly where the Rust
operation wraps; register cells hold byte values in every state reachable
from the constructor, which the wrapping-subtraction translations assume. -/
def execOp (s : Chip8) (raw : Nat) : Opcode → CycleResult
  | .ClearScreen => .ok { s with video := fun _ => false }
  | .Return =>
    match s.stack with
    | [] => .panic
    | p :: rest => .ok { s with pc := p, stack := rest }
  | .Jump nnn => .ok { s with pc := nnn }
  | .Call nnn => .ok { s with stack := s.pc :: s.stack, pc := nnn }
  | .SkipEqualByte x nn =>
    .ok (if s.reg x = nn then { s with pc := (s.pc + 2) % 65536 } else s)
  | .SkipNotEqualByte x nn =>
    .ok (if s.reg x ≠ nn then { s with pc := (s.pc + 2) % 65536 } else s)
  | .SkipEqual x y =>
    .ok (if s.reg x = s.reg y then { s with pc := (s.pc + 2) % 65536 } else s)
  | .LoadByte x nn => .ok { s with reg := upd s.reg x nn }
  | .AddByte x nn => .ok { s with reg := upd s.reg x ((s.reg x + nn) % 256) }
  | .Load x y => .ok { s with reg := upd s.reg x (s.reg y) }
  | .Or x y => .ok { s with reg := upd s.reg x (s.reg x ||| s.reg y) }
  | .And x y => .ok { s with reg := upd s.reg x (s.reg x &&& s.reg y) }
  | .Xor x y => .ok { s with reg := upd s.reg x (s.reg x ^^^ s.reg y) }
  | .Add x y =>
    let res := (s.reg x + s.reg y) % 256
    let carry := if 256 ≤ s.reg x + s.reg y then 1 else 0
    .ok { s with reg := upd (upd s.reg x res) 0xF carry }
  | .Sub x y =>
    let res := (s.reg x + 256 - s.reg y) % 256
    let noborrow := if s.reg x < s.reg y then 0 else 1
    .ok { s with reg := upd (upd s.reg x res) 0xF noborrow }
  | .ShiftRight x =>
    let r1 := upd s.reg 0xF (s.reg x &&& 1)
    .ok { s with reg := upd r1 x (r1 x >>> 1) }
  | .SubN x y =>
    let res := (s.reg y + 256 - s.reg x) % 256
    let noborrow := if s.reg y < s.reg x then 0 else 1
    .ok { s with reg := upd (upd s.reg x res) 0xF noborrow }
  | .ShiftLeft x =>
    let r1 := upd s.reg 0xF ((s.reg x >>> 7) &&& 1)
    .ok { s with reg := upd r1 x ((r1 x <<< 1) % 256) }
  | .SkipNotEqual x y =>
    .ok (if s.reg x ≠ s.reg y then { s with pc := (s.pc + 2) % 65536 } else s)
  | .LoadI nnn => .ok { s with i := nnn }
  | .JumpV0 nnn => .ok { s with pc := (s.reg 0x0 + nnn) % 65536 }
  | .Random x nn => .ok { s with reg := upd s.reg x (s.rng &&& nn) }
  | .Draw x y n =>
    match drawRows s.mem s.i (s.reg x) (s.reg y) 0 n (0, s.video) with
    | some (vf, vid) => .ok { s with reg := upd s.reg 0xF vf, video := vid }
    | none => .panic
  | .SkipKeyPress x =>
    let key := s.reg x
    if key < NUM_KEYS then
      .ok (if s.keypad key then { s with pc := (s.pc + 2) % 65536 } else s)
    else .panic
  | .SkipKeyNotPress x =>
    let key := s.reg x
    if key < NUM_KEYS then
      .ok (if ¬ s.keypad key then { s with pc := (s.pc + 2) % 65536 } else s)
    else .panic
  | .LoadDelayTimer x => .ok { s with reg := upd s.reg x s.dt }
  | .LoadKeyPress x =>
    match firstPressed s.keypad with
    | some k => .ok { s with reg := upd s.reg x k }
    | none => .ok { s with pc := (s.pc + 65534) % 65536 }
  | .LoadDelayTimerSet x => .ok { s with dt := s.reg x }
  | .LoadSoundTimer x => .ok { s with st := s.reg x }
  | .AddI x => .ok { s with i := (s.i + s.reg x) % 65536 }
  | .LoadFont x => .ok { s with i := FONTSET_START_ADDRESS + s.reg x * 5 }
  | .LoadBCD x =>
    let value := s.reg x
    if (s.i + 2) % 65536 < MEMORY_SIZE then
      let m1 := upd s.mem ((s.i + 2) % 65536) (value % 10)
      if (s.i + 1) % 65536 < MEMORY_SIZE then
        let m2 := upd m1 ((s.i + 1) % 65536) (value / 10 % 10)
        if s.i < MEMORY_SIZE then
          .ok { s with mem := upd m2 s.i (value / 10 / 10 % 10) }
        else .panic
      else .panic
    else .panic
  | .StoreRegisters x =>
    match storeRegsGo s.reg s.i s.mem 0 (x + 1) with
    | some m => .ok { s with mem := m }
    | none => .panic
  | .LoadRegisters x =>
    match loadRegsGo s.mem s.i s.reg 0 (x + 1) with
    | some r => .ok { s with reg := r }
    | none => .panic
  | .Invalid _ => .err (Chip8Error.InvalidInstruction raw) s

/-- The timer block at the end of `Chip8::cycle`: each of `dt`, `st` is
decremented when nonzero. -/
def tickTimers (s : Chip8) : Chip8 :=
  let s1 := if s.dt > 0 then { s with dt := s.dt - 1 } else s
  if s1.st > 0 then { s1 with st := s1.st - 1 } else s1

/-- The timer block runs only on the paths that reach the end of `cycle`:
the `Invalid` arm returns early with `Err` and a panic aborts, so both skip
it. -/
def applyTimers : CycleResult → CycleResult
  | .ok s => .ok (tickTimers s)
  | r => r

/-- `self.pc += 2` after the fetch (`u16` addition). -/
def advancePC (s : Chip8) : Chip8 :=
  { s with pc := (s.pc + 2) % 65536 }

/-- `Chip8::cycle`: fetch, decode, advance `pc`, execute, tick timers. -/
def cycle (s : Chip8) : CycleResult :=
  match fetch_opcode s with
  | none => .panic
  | some raw => applyTimers (execOp (advancePC s) raw (decode_opcode raw))

/-- Modelled from the spec (sprite-draw): sprite row `dy`, bit `dx` of the
draw with index register `i`, origin registers `(vx, vy)` and height `n`
hits the framebuffer cell `(X, Y)` — each coordinate wrapped independently
per pixel. -/
def SpriteHits (mem : Nat → Nat) (i vx vy n X Y : Nat) : Prop :=
  ∃ dy < n, ∃ dx < 8,
    X = (vx + dx) % VIDEO_WIDTH ∧ Y = (vy + dy) % VIDEO_HEIGHT ∧
    mem (i + dy) &&& (128 >>> dx) ≠ 0

/-- Modelled from the spec (sprite-draw collision): some set sprite bit
lands on an already-lit framebuffer cell. -/
def SpriteCollides (mem : Nat → Nat) (vid : Nat → Bool) (i vx vy n : Nat) : Prop :=
  ∃ dy < n, ∃ dx < 8,
    mem (i + dy) &&& (128 >>> dx) ≠ 0 ∧
    vid (((vy + dy) % VIDEO_HEIGHT) * VIDEO_WIDTH + (vx + dx) % VIDEO_WIDTH) = true

/-- The framebuffer index written by sprite bit `(dx, dy)` of a draw with
origin `(vx, vy)`: coordinates wrap independently, row-major layout. -/
def pix (vx vy dx dy : Nat) : Nat :=
  ((vy + dy) % VIDEO_HEIGHT) * VIDEO_WIDTH + (vx + dx) % VIDEO_WIDTH

/-- The instructions whose execute arm writes a timer (`Fx15`, `Fx18`). -/
def writesTimer : Opcode → Bool
  | .LoadDelayTimerSet _ => true
  | .LoadSoundTimer _ => true
  | _ => false

/-- Register `j` of the machine state left by a cycle (`none` after a
panic, which aborts and leaves no observable state). -/
def regAfter : CycleResult → Nat → Option Nat
  | .ok s, j => some (s.reg j)
  | .err _ s, j => some (s.reg j)
  | .panic, _ => none

/-- Delay timer of the machine state left by a cycle. -/
def dtAfter : CycleResult → Option Nat
  | .ok s => some s.dt
  | .err _ s => some s.dt
  | .panic => none

/-- Sound timer of the machine state left by a cycle. -/
def stAfter : CycleResult → Option Nat
  | .ok s => some s.st
  | .err _ s => some s.st
  | .panic => none

/-- Whether a cycle returned the typed invalid-instruction error. -/
def isInvalidErr : CycleResult → Bool
  | .err (Chip8Error.InvalidInstruction _) _ => true
  | _ => false

/-- A concrete all-zero machine state (`pc` at the program start address)
used as the base of witnesses and counterexamples. -/
def baseState : Chip8 :=
  { mem := fun _ => 0, reg := fun _ => 0, i := 0, pc := MEMORY_START, stack := [],
    video := fun _ => false, keypad := fun _ => false, dt := 0, st := 0, rng := 0 }

/-- `withInstr s w`: state `s` with the 16-bit word `w` stored big-endian
at `pc`, `pc + 1`. -/
def withInstr (s : Chip8) (w : Nat) : Chip8 :=
  { s with mem := upd (upd s.mem s.pc (w >>> 8)) (s.pc + 1) (w &&& 0xFF) }

/-- Unrecognized word `0xFFFF` with both timers nonzero. -/
def stateInvalid : Chip8 :=
  { withInstr baseState 0xFFFF with dt := 5, st := 7 }

/-- `8F06` (`SHR VF`) with `VF = 3`. -/
def stateShrF : Chip8 :=
  { withInstr baseState 0x8F06 with reg := upd baseState.reg 0xF 3 }

/-- `8124` (`ADD V1, V2`) with `V1 = 0xFF`, `V2 = 0x01`. -/
def stateAdd : Chip8 :=
  { withInstr baseState 0x8124 with reg := upd (upd baseState.reg 1 0xFF) 2 0x01 }

/-- `00EE` (`RET`) with an empty stack. -/
def stateReturnEmpty : Chip8 :=
  withInstr baseState 0x00EE

/-- `2300` (`CALL 0x300`) with the stack already holding 16 entries. -/
def stateCall16 : Chip8 :=
  { withInstr baseState 0x2300 with stack := List.replicate 16 0 }

/-- `F033` (`LD B, V0`) with `I = 4094`, so the first BCD write is at 4096. -/
def stateBcdOob : Chip8 :=
  { withInstr baseState 0xF033 with i := 4094 }

/-- `D001` (draw, height 1) with `I = 4096`. -/
def stateDrawOob : Chip8 :=
  { withInstr baseState 0xD001 with i := 4096 }

/-- `D002` (draw, height 2) with `I = 4095`: the sprite straddles the end
of memory — row 0 reads `mem[4095]` in range, row 1 reads `mem[4096]`. -/
def stateDrawStraddle : Chip8 :=
  { withInstr baseState 0xD002 with i := 4095 }

/-- `F155` (`LD [I], V1`) with `I = 4095`, so the write at `v = 1` is at 4096. -/
def stateStoreOob : Chip8 :=
  { withInstr baseState 0xF155 with i := 4095 }

/-- `F165` (`LD V1, [I]`) with `I = 4095`. -/
def stateLoadOob : Chip8 :=
  { withInstr baseState 0xF165 with i := 4095 }

/-- `E19E` (`SKP V1`) with `V1 = 16`, one beyond the last keypad index. -/
def stateKeyOob : Chip8 :=
  { withInstr baseState 0xE19E with reg := upd baseState.reg 1 16 }

/-- `E19E` (`SKP V1`) with `V1 = 3` and key 3 pressed. -/
def stateKeyOk : Chip8 :=
  { withInstr baseState 0xE19E with
    reg := upd baseState.reg 1 3, keypad := upd baseState.keypad 3 true }

/-- `F10A` (`LD V1, K`) with no key pressed. -/
def stateWaitNoKey : Chip8 :=
  withInstr baseState 0xF10A

/-- `F10A` (`LD V1, K`) with keys 5 and 9 pressed. -/
def stateWaitKeys : Chip8 :=
  { withInstr baseState 0xF10A with
    keypad := upd (upd baseState.keypad 9 true) 5 true }

/-- `D011` (draw 8x1 at `(V0, V1) = (63, 31)`) with sprite byte `0xFF` at
`I = 0`: exercises horizontal wrap on the bottom row. -/
def stateDraw : Chip8 :=
  { withInstr baseState 0xD011 with
    reg := upd (upd baseState.reg 0 63) 1 31,
    mem := upd (withInstr baseState 0xD011).mem 0 0xFF }

example : decode_opcode 0x00E0 = Opcode.ClearScreen := by decide

example : decode_opcode 0x5121 = Opcode.SkipEqual 1 2 := by decide

example : decode_opcode 0x8AB9 = Opcode.Invalid 0x8AB9 := by decide

example : fetch_opcode (withInstr baseState 0xD011) = some 0xD011 := by decide

/-! ## Helper lemmas -/

theorem upd_self {α : Type} (f : Nat → α) (i : Nat) (v : α) : upd f i v i = v := by
  simp [upd]

theorem upd_ne {α : Type} (f : Nat → α) (i j : Nat) (v : α) (h : j ≠ i) :
    upd f i v j = f j := by
  simp [upd, h]

theorem fetch_pc_bound {s : Chip8} {raw : Nat} (h : fetch_opcode s = some raw) :
    s.pc + 1 < 4096 := by
  unfold fetch_opcode at h
  split at h
  · rename_i hc
    simp [MEMORY_SIZE] at hc
    omega
  · exact absurd h (by simp)

theorem cycle_eq {s : Chip8} {raw : Nat} (h : fetch_opcode s = some raw) :
    cycle s = applyTimers (execOp (advancePC s) raw (decode_opcode raw)) := by
  simp [cycle, h]

theorem tickTimers_reg (s : Chip8) : (tickTimers s).reg = s.reg := by
  simp only [tickTimers]
  split <;> split <;> rfl

theorem tickTimers_pc (s : Chip8) : (tickTimers s).pc = s.pc := by
  simp only [tickTimers]
  split <;> split <;> rfl

theorem tickTimers_i (s : Chip8) : (tickTimers s).i = s.i := by
  simp only [tickTimers]
  split <;> split <;> rfl

theorem tickTimers_mem (s : Chip8) : (tickTimers s).mem = s.mem := by
  simp only [tickTimers]
  split <;> split <;> rfl

theorem tickTimers_video (s : Chip8) : (tickTimers s).video = s.video := by
  simp only [tickTimers]
  split <;> split <;> rfl

theorem tickTimers_stack (s : Chip8) : (tickTimers s).stack = s.stack := by
  simp only [tickTimers]
  split <;> split <;> rfl

theorem tickTimers_keypad (s : Chip8) : (tickTimers s).keypad = s.keypad := by
  simp only [tickTimers]
  split <;> split <;> rfl

/-! ## C1: decoder totality -/

/-- Claim C1: for every 16-bit instruction word, the decoder (a total
function, hence deterministic and never failing) returns the `Invalid`
variant carrying the raw word exactly when the word matches no recognized
form of the spec's dispatch table — where, per that table, only groups 0,
8, E and F carry a second-level dispatch, so every group-5 and group-9
word is a recognized register-comparison skip form. -/
theorem decoder_invalid_iff_unrecognized :
    ∀ op < 65536, (decode_opcode op = Opcode.Invalid op ↔ recognizedSpec op = false) := by
  intro op hop
  simp only [decode_opcode, recognizedSpec]
  repeat' split
  all_goals simp_all
  all_goals omega

/-- Witness for C1 at the unrecognized group-8 word `0x8AB9`. -/
theorem decoder_invalid_iff_unrecognized_witness :
    0x8AB9 < 65536 ∧
      (decode_opcode 0x8AB9 = Opcode.Invalid 0x8AB9 ↔ recognizedSpec 0x8AB9 = false) :=
  ⟨by decide, decoder_invalid_iff_unrecognized 0x8AB9 (by decide)⟩

/-! ## C10: invalid-instruction error leaves the state unchanged except pc -/

/-- Claim C10: when `cycle` returns the invalid-instruction error, the
resulting machine state differs from the pre-cycle state only in `pc`,
which has advanced by one instruction width (2 bytes); registers, index
register, memory, framebuffer, stack, keypad and both timers are
untouched. -/
theorem invalid_instruction_err_state (s : Chip8) (raw : Nat)
    (hf : fetch_opcode s = some raw) (hd : decode_opcode raw = Opcode.Invalid raw) :
    ∃ s', cycle s = CycleResult.err (Chip8Error.InvalidInstruction raw) s' ∧
      s'.pc = s.pc + 2 ∧ s'.reg = s.reg ∧ s'.i = s.i ∧ s'.mem = s.mem ∧
      s'.video = s.video ∧ s'.stack = s.stack ∧ s'.keypad = s.keypad ∧
      s'.dt = s.dt ∧ s'.st = s.st := by
  have hpc := fetch_pc_bound hf
  refine ⟨advancePC s, ?_, ?_, rfl, rfl, rfl, rfl, rfl, rfl, rfl, rfl⟩
  · rw [cycle_eq hf, hd]
    rfl
  · simp [advancePC]
    omega

/-- Witness for C10 at the unrecognized word `0xFFFF` with nonzero timers. -/
theorem invalid_instruction_err_state_witness :
    ∃ s', cycle stateInvalid = CycleResult.err (Chip8Error.InvalidInstruction 0xFFFF) s' ∧
      s'.pc = stateInvalid.pc + 2 ∧ s'.reg = stateInvalid.reg ∧ s'.i = stateInvalid.i ∧
      s'.mem = stateInvalid.mem ∧ s'.video = stateInvalid.video ∧
      s'.stack = stateInvalid.stack ∧ s'.keypad = stateInvalid.keypad ∧
      s'.dt = stateInvalid.dt ∧ s'.st = stateInvalid.st :=
  invalid_instruction_err_state stateInvalid 0xFFFF (by decide) (by decide)

/-! ## C3: blocking key-wait -/

theorem positionGo_eq_none (kp : Nat → Bool) :
    ∀ fuel k, (∀ j, k ≤ j → j < k + fuel → kp j = false) →
      positionGo kp k fuel = none := by
  intro fuel
  induction fuel with
  | zero => intro k _; rfl
  | succ fuel ih =>
    intro k h
    unfold positionGo
    rw [h k (Nat.le_refl k) (by omega)]
    simp only [Bool.false_eq_true, if_false]
    exact ih (k + 1) (fun j h1 h2 => h j (by omega) (by omega))

theorem positionGo_eq_some (kp : Nat → Bool) :
    ∀ fuel k m, k ≤ m → m < k + fuel → kp m = true →
      (∀ j, k ≤ j → j < m → kp j = false) →
      positionGo kp k fuel = some m := by
  intro fuel
  induction fuel with
  | zero => intro k m h1 h2 _ _; exact absurd h1 (by omega)
  | succ fuel ih =>
    intro k m h1 h2 h3 h4
    unfold positionGo
    by_cases hk : k = m
    · subst hk
      rw [h3]
      simp
    · rw [h4 k (Nat.le_refl k) (by omega)]
      simp only [Bool.false_eq_true, if_false]
      exact ih (k + 1) m (by omega) (by omega) h3 (fun j hj1 hj2 => h4 j (by omega) hj2)

/-- Claim C3: when the block-until-keypress instruction executes with no
key pressed, the cycle leaves `pc` net unchanged (the advance is undone,
so the same instruction is fetched again); when at least one key is
pressed, the destination register receives the lowest-indexed pressed key
and `pc` advances normally by one instruction width. -/
theorem key_wait_semantics (s : Chip8) (raw x : Nat)
    (hf : fetch_opcode s = some raw) (hd : decode_opcode raw = Opcode.LoadKeyPress x) :
    ((∀ k < 16, s.keypad k = false) →
      ∃ s', cycle s = CycleResult.ok s' ∧ s'.pc = s.pc) ∧
    (∀ m < 16, s.keypad m = true → (∀ j < m, s.keypad j = false) →
      ∃ s', cycle s = CycleResult.ok s' ∧ s'.reg x = m ∧ s'.pc = s.pc + 2) := by
  have hpc := fetch_pc_bound hf
  constructor
  · intro hnone
    have hfp : firstPressed s.keypad = none :=
      positionGo_eq_none s.keypad 16 0 (fun j _ h2 => hnone j (by omega))
    rw [cycle_eq hf, hd]
    simp only [execOp, advancePC]
    rw [hfp]
    refine ⟨_, rfl, ?_⟩
    rw [tickTimers_pc]
    dsimp only
    omega
  · intro m hm hkm hbelow
    have hfp : firstPressed s.keypad = some m :=
      positionGo_eq_some s.keypad 16 0 m (by omega) (by omega) hkm
        (fun j _ hj2 => hbelow j hj2)
    rw [cycle_eq hf, hd]
    simp only [execOp, advancePC]
    rw [hfp]
    refine ⟨_, rfl, ?_, ?_⟩
    · rw [tickTimers_reg]
      dsimp only
      exact upd_self _ _ _
    · rw [tickTimers_pc]
      dsimp only
      omega

/-- Witness for C3: the no-key case at `stateWaitNoKey` and the
keys-5-and-9 case at `stateWaitKeys`. -/
theorem key_wait_semantics_witness :
    (∃ s', cycle stateWaitNoKey = CycleResult.ok s' ∧ s'.pc = stateWaitNoKey.pc) ∧
    (∃ s', cycle stateWaitKeys = CycleResult.ok s' ∧ s'.reg 1 = 5 ∧
      s'.pc = stateWaitKeys.pc + 2) :=
  ⟨(key_wait_semantics stateWaitNoKey 0xF10A 1 (by decide) (by decide)).1
      (by decide),
    (key_wait_semantics stateWaitKeys 0xF10A 1 (by decide) (by decide)).2 5
      (by decide) (by decide) (by decide)⟩

/-! ## C4: add-with-carry -/

/-- Claim C4: for 8-bit operands, the add-with-carry arm stores
`(a + b) mod 256` in the destination register and sets `VF` to 1 exactly
when the mathematical sum exceeds 255 (the flag write comes second, so at
destination `VF` the flag wins). -/
theorem add_with_carry (s : Chip8) (raw x y : Nat)
    (hf : fetch_opcode s = some raw) (hd : decode_opcode raw = Opcode.Add x y)
    (ha : s.reg x < 256) (hb : s.reg y < 256) :
    ∃ s', cycle s = CycleResult.ok s' ∧
      s'.reg 0xF = (if 255 < s.reg x + s.reg y then 1 else 0) ∧
      (∀ j, j ≠ 0xF →
        s'.reg j = if j = x then (s.reg x + s.reg y) % 256 else s.reg j) := by
  rw [cycle_eq hf, hd]
  simp only [execOp, advancePC, applyTimers]
  refine ⟨_, rfl, ?_, ?_⟩
  · rw [tickTimers_reg]
    dsimp only
    rw [upd_self]
    split_ifs <;> omega
  · intro j hj
    rw [tickTimers_reg]
    dsimp only
    rw [upd_ne _ _ _ _ hj]
    simp [upd]

/-- Witness for C4: `V1 = 0xFF`, `V2 = 0x01` gives result `0x00`, `VF = 1`. -/
theorem add_with_carry_witness :
    ∃ s', cycle stateAdd = CycleResult.ok s' ∧
      s'.reg 0xF = (if 255 < stateAdd.reg 1 + stateAdd.reg 2 then 1 else 0) ∧
      (∀ j, j ≠ 0xF →
        s'.reg j = if j = 1 then (stateAdd.reg 1 + stateAdd.reg 2) % 256
          else stateAdd.reg j) :=
  add_with_carry stateAdd 0x8124 1 2 (by decide) (by decide) (by decide) (by decide)

/-! ## C6: timer decrement -/

theorem tickTimers_dt (s : Chip8) : (tickTimers s).dt = s.dt - 1 := by
  simp only [tickTimers]
  split <;> split <;> simp_all <;> omega

theorem tickTimers_st (s : Chip8) : (tickTimers s).st = s.st - 1 := by
  simp only [tickTimers]
  split <;> split <;> simp_all <;> omega

theorem execOp_err_inv {s : Chip8} {raw : Nat} {op : Opcode} {e : Chip8Error} {t : Chip8}
    (h : execOp s raw op = CycleResult.err e t) :
    e = Chip8Error.InvalidInstruction raw ∧ t = s := by
  cases op <;> simp only [execOp] at h <;> (try (repeat' split at h)) <;> simp_all

theorem execOp_ok_timers {s : Chip8} {raw : Nat} {op : Opcode} {t : Chip8}
    (hw : writesTimer op = false) (h : execOp s raw op = CycleResult.ok t) :
    t.dt = s.dt ∧ t.st = s.st := by
  cases op <;> simp only [execOp, writesTimer] at hw h <;>
    (try (repeat' split at h)) <;> (try injection h with h) <;>
    (try cases h) <;> (try exact ⟨rfl, rfl⟩) <;> exact Bool.noConfusion hw

/-- Counterexample to claim C6: at `stateInvalid` both timers are nonzero
(`dt = 5`, `st = 7`) and the fetched word `0xFFFF` is unrecognized; the
cycle returns the invalid-instruction error early and leaves both timers
undecremented, contradicting "decremented ... regardless of which
instruction executed (including invalid ones)". -/
theorem timer_skip_on_invalid_counterexample :
    isInvalidErr (cycle stateInvalid) = true ∧ stateInvalid.dt = 5 ∧
      stateInvalid.st = 7 ∧ dtAfter (cycle stateInvalid) = some 5 ∧
      stAfter (cycle stateInvalid) = some 7 := by
  decide

/-- Claim C6 amended: the end-of-cycle timer block applies only on the
paths that return success — a cycle that returns the invalid-instruction
error leaves both timers untouched.  On a successful cycle each timer that
is nonzero *after the executed instruction's own effect* (equal to its
pre-cycle value for every instruction except the two timer setters) is
decremented by exactly 1, and a zero timer stays 0. -/
theorem timer_decrement_amended (s : Chip8) (raw : Nat)
    (hf : fetch_opcode s = some raw) :
    (∀ t, execOp (advancePC s) raw (decode_opcode raw) = CycleResult.ok t →
      cycle s = CycleResult.ok (tickTimers t) ∧
      (0 < t.dt → (tickTimers t).dt = t.dt - 1) ∧
      (t.dt = 0 → (tickTimers t).dt = 0) ∧
      (0 < t.st → (tickTimers t).st = t.st - 1) ∧
      (t.st = 0 → (tickTimers t).st = 0) ∧
      (writesTimer (decode_opcode raw) = false → t.dt = s.dt ∧ t.st = s.st)) ∧
    (∀ e t, execOp (advancePC s) raw (decode_opcode raw) = CycleResult.err e t →
      cycle s = CycleResult.err e t ∧ t.dt = s.dt ∧ t.st = s.st) := by
  constructor
  · intro t ht
    refine ⟨by rw [cycle_eq hf, ht]; rfl, ?_, ?_, ?_, ?_, ?_⟩
    · intro _; exact tickTimers_dt t
    · intro h0; rw [tickTimers_dt, h0]
    · intro _; exact tickTimers_st t
    · intro h0; rw [tickTimers_st, h0]
    · intro hw
      have hts := execOp_ok_timers hw ht
      exact ⟨hts.1, hts.2⟩
  · intro e t ht
    obtain ⟨he, hts⟩ := execOp_err_inv ht
    subst hts
    exact ⟨by rw [cycle_eq hf, ht]; rfl, rfl, rfl⟩

/-- Witness for the C6 amended theorem: the error branch at
`stateInvalid`, where both timers survive unchanged. -/
theorem timer_decrement_amended_witness :
    cycle stateInvalid =
      CycleResult.err (Chip8Error.InvalidInstruction 0xFFFF) (advancePC stateInvalid) ∧
    (advancePC stateInvalid).dt = stateInvalid.dt ∧
    (advancePC stateInvalid).st = stateInvalid.st :=
  (timer_decrement_amended stateInvalid 0xFFFF (by decide)).2
    (Chip8Error.InvalidInstruction 0xFFFF) (advancePC stateInvalid) rfl

/-! ## C7: stack underflow / overflow -/

/-- Counterexample to claim C7: executing return (`00EE`) on an empty
stack panics (the source unwraps `Vec::pop`), instead of surfacing a
typed error to the caller of `cycle`. -/
theorem stack_underflow_counterexample :
    cycle stateReturnEmpty = CycleResult.panic ∧ stateReturnEmpty.stack = [] :=
  ⟨rfl, rfl⟩

/-- Claim C7 amended: return on an empty stack aborts with a panic
(`unwrap` of `None`), not a typed reported error; call performs no
capacity check at all — the `Vec`-backed stack grows unconditionally, so a
call with 16 entries already on the stack silently yields 17 and no
overflow is ever reported. -/
theorem stack_ops_amended :
    (∀ s raw, fetch_opcode s = some raw → decode_opcode raw = Opcode.Return →
      s.stack = [] → cycle s = CycleResult.panic) ∧
    (∀ s raw nnn, fetch_opcode s = some raw → decode_opcode raw = Opcode.Call nnn →
      ∃ s', cycle s = CycleResult.ok s' ∧ s'.stack = (s.pc + 2) :: s.stack ∧
        s'.pc = nnn ∧ s'.stack.length = s.stack.length + 1) := by
  constructor
  · intro s raw hf hd hstack
    rw [cycle_eq hf, hd]
    simp only [execOp, advancePC]
    rw [hstack]
    rfl
  · intro s raw nnn hf hd
    have hpc := fetch_pc_bound hf
    rw [cycle_eq hf, hd]
    refine ⟨_, rfl, ?_, ?_, ?_⟩
    · rw [tickTimers_stack]
      dsimp only [advancePC]
      rw [Nat.mod_eq_of_lt (by omega)]
    · rw [tickTimers_pc]
    · rw [tickTimers_stack]
      simp [advancePC]

/-- Witness for the C7 amended theorem: the panic at `stateReturnEmpty`
and unbounded growth at `stateCall16` (16 entries before, 17 after). -/
theorem stack_ops_amended_witness :
    cycle stateReturnEmpty = CycleResult.panic ∧
    (∃ s', cycle stateCall16 = CycleResult.ok s' ∧
      s'.stack = 0x202 :: stateCall16.stack ∧ s'.pc = 0x300 ∧
      s'.stack.length = stateCall16.stack.length + 1) :=
  ⟨stack_ops_amended.1 stateReturnEmpty 0x00EE (by decide) (by decide) rfl,
    stack_ops_amended.2 stateCall16 0x2300 0x300 (by decide) (by decide)⟩

/-! ## C8: out-of-range memory accesses -/

theorem storeRegsGo_none (reg : Nat → Nat) (i : Nat) :
    ∀ fuel mem v, 4096 ≤ i + v + fuel → storeRegsGo reg i mem v (fuel + 1) = none := by
  intro fuel
  induction fuel with
  | zero =>
    intro mem v h
    unfold storeRegsGo
    rw [if_neg (by simp only [MEMORY_SIZE]; omega)]
  | succ fuel ih =>
    intro mem v h
    unfold storeRegsGo
    split
    · exact ih _ (v + 1) (by omega)
    · rfl

theorem loadRegsGo_none (mem : Nat → Nat) (i : Nat) :
    ∀ fuel reg v, 4096 ≤ i + v + fuel → loadRegsGo mem i reg v (fuel + 1) = none := by
  intro fuel
  induction fuel with
  | zero =>
    intro reg v h
    unfold loadRegsGo
    rw [if_neg (by simp only [MEMORY_SIZE]; omega)]
  | succ fuel ih =>
    intro reg v h
    unfold loadRegsGo
    split
    · exact ih _ (v + 1) (by omega)
    · rfl

/-- Counterexample to claim C8: `F033` (BCD) with `I = 4094` computes the
address 4096, one past the memory array; the cycle panics (Rust
bounds-check abort) instead of returning a reported failure. -/
theorem oob_access_counterexample :
    cycle stateBcdOob = CycleResult.panic ∧ stateBcdOob.i = 4094 :=
  ⟨rfl, rfl⟩

/-- Claim C8 amended: a computed address outside the 4096-byte memory
array — in the sprite fetch of draw, the BCD writes, or the register-block
store/load loops — makes the cycle abort with a bounds-check panic; the
access never reaches memory, but no typed failure is returned to the
caller either. -/
theorem drawRows_oob_none (mem : Nat → Nat) (i vx vy : Nat) :
    ∀ fuel dy acc, (∃ r, dy ≤ r ∧ r < dy + fuel ∧ 4096 ≤ (i + r) % 65536) →
      drawRows mem i vx vy dy fuel acc = none := by
  intro fuel
  induction fuel with
  | zero =>
    intro dy acc h
    obtain ⟨r, h1, h2, -⟩ := h
    exact absurd h1 (by omega)
  | succ fuel ih =>
    intro dy acc h
    simp only [drawRows, MEMORY_SIZE]
    split
    · rename_i hlt
      apply ih (dy + 1)
      obtain ⟨r, h1, h2, h3⟩ := h
      refine ⟨r, ?_, by omega, h3⟩
      rcases Nat.eq_or_lt_of_le h1 with hEq | hGt
      · exact absurd h3 (by omega)
      · omega
    · rfl

theorem oob_memory_access_amended :
    (∀ s raw x y n, fetch_opcode s = some raw → decode_opcode raw = Opcode.Draw x y n →
      (∃ dy < n, 4096 ≤ (s.i + dy) % 65536) → cycle s = CycleResult.panic) ∧
    (∀ s raw x, fetch_opcode s = some raw → decode_opcode raw = Opcode.LoadBCD x →
      (4096 ≤ (s.i + 2) % 65536 ∨ 4096 ≤ (s.i + 1) % 65536 ∨ 4096 ≤ s.i) →
      cycle s = CycleResult.panic) ∧
    (∀ s raw x, fetch_opcode s = some raw → decode_opcode raw = Opcode.StoreRegisters x →
      4096 ≤ s.i + x → cycle s = CycleResult.panic) ∧
    (∀ s raw x, fetch_opcode s = some raw → decode_opcode raw = Opcode.LoadRegisters x →
      4096 ≤ s.i + x → cycle s = CycleResult.panic) := by
  refine ⟨?_, ?_, ?_, ?_⟩
  · intro s raw x y n hf hd hoob
    rw [cycle_eq hf, hd]
    simp only [execOp, advancePC]
    obtain ⟨dy, h1, h2⟩ := hoob
    rw [drawRows_oob_none s.mem s.i (s.reg x) (s.reg y) n 0 (0, s.video)
      ⟨dy, Nat.zero_le dy, by omega, h2⟩]
    rfl
  · intro s raw x hf hd hoob
    rw [cycle_eq hf, hd]
    simp only [execOp, advancePC, MEMORY_SIZE]
    rcases hoob with h1 | h2 | h3
    · rw [if_neg (by omega)]
      rfl
    · by_cases hc1 : (s.i + 2) % 65536 < 4096
      · rw [if_pos hc1, if_neg (by omega)]
        rfl
      · rw [if_neg hc1]
        rfl
    · by_cases hc1 : (s.i + 2) % 65536 < 4096
      · rw [if_pos hc1]
        by_cases hc2 : (s.i + 1) % 65536 < 4096
        · rw [if_pos hc2, if_neg (by omega)]
          rfl
        · rw [if_neg hc2]
          rfl
      · rw [if_neg hc1]
        rfl
  · intro s raw x hf hd hi
    rw [cycle_eq hf, hd]
    simp only [execOp, advancePC]
    rw [storeRegsGo_none s.reg s.i x s.mem 0 (by omega)]
    rfl
  · intro s raw x hf hd hi
    rw [cycle_eq hf, hd]
    simp only [execOp, advancePC]
    rw [loadRegsGo_none s.mem s.i x s.reg 0 (by omega)]
    rfl

/-- Witness for the C8 amended theorem: concrete panics in all four arms,
including a sprite that straddles the end of memory (`I = 4095`,
height 2, where only row 1's address is out of range). -/
theorem oob_memory_access_amended_witness :
    cycle stateDrawOob = CycleResult.panic ∧
    cycle stateDrawStraddle = CycleResult.panic ∧
    cycle stateBcdOob = CycleResult.panic ∧
    cycle stateStoreOob = CycleResult.panic ∧ cycle stateLoadOob = CycleResult.panic :=
  ⟨oob_memory_access_amended.1 stateDrawOob 0xD001 0 0 1 (by decide) (by decide)
      (by decide),
    oob_memory_access_amended.1 stateDrawStraddle 0xD002 0 0 2 (by decide) (by decide)
      (by decide),
    oob_memory_access_amended.2.1 stateBcdOob 0xF033 0 (by decide) (by decide)
      (by decide),
    oob_memory_access_amended.2.2.1 stateStoreOob 0xF155 1 (by decide) (by decide)
      (by decide),
    oob_memory_access_amended.2.2.2 stateLoadOob 0xF165 1 (by decide) (by decide)
      (by decide)⟩

/-! ## C9: keypad indexing -/

/-- Counterexample to claim C9: `E19E` (`SKP V1`) with `V1 = 16` indexes
the 16-entry keypad with 16; the skip arm does reach the keypad access
with an index outside `[0, 16)` and the cycle aborts with a bounds-check
panic. -/
theorem keypad_index_counterexample :
    cycle stateKeyOob = CycleResult.panic ∧ stateKeyOob.reg 1 = 16 :=
  ⟨rfl, by decide⟩

/-- Claim C9 amended: the keypad index of the key-skip instructions is the
full 8-bit register value, not a 4-bit field.  When it is below 16 the
skip executes normally; when it is 16 or more the bounds check panics — so
no out-of-range index reaches the underlying storage silently, but such
indices do occur and abort execution instead of being impossible. -/
theorem keypad_index_amended :
    (∀ s raw x, fetch_opcode s = some raw → decode_opcode raw = Opcode.SkipKeyPress x →
      ((s.reg x < 16 → ∃ s', cycle s = CycleResult.ok s' ∧
        s'.pc = (if s.keypad (s.reg x) = true then s.pc + 4 else s.pc + 2)) ∧
       (16 ≤ s.reg x → cycle s = CycleResult.panic))) ∧
    (∀ s raw x, fetch_opcode s = some raw → decode_opcode raw = Opcode.SkipKeyNotPress x →
      ((s.reg x < 16 → ∃ s', cycle s = CycleResult.ok s' ∧
        s'.pc = (if s.keypad (s.reg x) = true then s.pc + 2 else s.pc + 4)) ∧
       (16 ≤ s.reg x → cycle s = CycleResult.panic))) := by
  constructor
  · intro s raw x hf hd
    have hpc := fetch_pc_bound hf
    rw [cycle_eq hf, hd]
    simp only [execOp, advancePC, NUM_KEYS]
    constructor
    · intro hx
      rw [if_pos hx]
      refine ⟨_, rfl, ?_⟩
      rw [tickTimers_pc]
      split_ifs with hkey <;> dsimp only <;> omega
    · intro hx
      rw [if_neg (by omega)]
      rfl
  · intro s raw x hf hd
    have hpc := fetch_pc_bound hf
    rw [cycle_eq hf, hd]
    simp only [execOp, advancePC, NUM_KEYS]
    constructor
    · intro hx
      rw [if_pos hx]
      refine ⟨_, rfl, ?_⟩
      rw [tickTimers_pc]
      split_ifs with hkey <;> dsimp only <;> omega
    · intro hx
      rw [if_neg (by omega)]
      rfl

/-- Witness for the C9 amended theorem: normal skip at `stateKeyOk`
(`V1 = 3`, key 3 pressed) and panic at `stateKeyOob` (`V1 = 16`). -/
theorem keypad_index_amended_witness :
    (∃ s', cycle stateKeyOk = CycleResult.ok s' ∧
      s'.pc = (if stateKeyOk.keypad (stateKeyOk.reg 1) = true
        then stateKeyOk.pc + 4 else stateKeyOk.pc + 2)) ∧
    cycle stateKeyOob = CycleResult.panic :=
  ⟨(keypad_index_amended.1 stateKeyOk 0xE19E 1 (by decide) (by decide)).1 (by decide),
    (keypad_index_amended.1 stateKeyOob 0xE19E 1 (by decide) (by decide)).2 (by decide)⟩

/-! ## C5: operand reads versus the VF flag write -/

/-- Counterexample to claim C5: `8F06` (`SHR VF`) with `VF = 3`.  Computed
from the pre-instruction operand value 3, the shifted result would be
`3 >>> 1 = 1` and the flag `3 &&& 1 = 1`, so the register would end as 1
under any write order; the code instead stores 0, because the shift reads
`VF` *after* the flag write clobbered it. -/
theorem shift_flag_order_counterexample :
    regAfter (cycle stateShrF) 0xF = some 0 ∧ stateShrF.reg 0xF = 3 ∧
      3 >>> 1 = 1 ∧ 3 &&& 1 = 1 := by
  decide

/-- Claim C5 amended: add-with-carry, subtract-with-borrow and
subtract-reverse read all operands before writing `VF`, so result and flag
come from pre-instruction values even when `x = 0xF` (where the
later flag write wins).  The two shifts instead write `VF` *before*
shifting: for `x ≠ 0xF` both cells still receive pre-instruction-derived
values, but for `x = 0xF` the stored value is the just-written flag
shifted, not a value computed from the pre-instruction register. -/
theorem flag_ops_operand_order (s : Chip8) (raw x y : Nat) :
    (∃ t, execOp s raw (Opcode.Add x y) = CycleResult.ok t ∧ ∀ j,
      t.reg j = if j = 0xF then (if 256 ≤ s.reg x + s.reg y then 1 else 0)
        else if j = x then (s.reg x + s.reg y) % 256 else s.reg j) ∧
    (∃ t, execOp s raw (Opcode.Sub x y) = CycleResult.ok t ∧ ∀ j,
      t.reg j = if j = 0xF then (if s.reg x < s.reg y then 0 else 1)
        else if j = x then (s.reg x + 256 - s.reg y) % 256 else s.reg j) ∧
    (∃ t, execOp s raw (Opcode.SubN x y) = CycleResult.ok t ∧ ∀ j,
      t.reg j = if j = 0xF then (if s.reg y < s.reg x then 0 else 1)
        else if j = x then (s.reg y + 256 - s.reg x) % 256 else s.reg j) ∧
    (∃ t, execOp s raw (Opcode.ShiftRight x) = CycleResult.ok t ∧
      (x ≠ 0xF → ∀ j, t.reg j = if j = 0xF then s.reg x &&& 1
        else if j = x then s.reg x >>> 1 else s.reg j) ∧
      (x = 0xF → ∀ j, t.reg j =
        if j = 0xF then (s.reg 0xF &&& 1) >>> 1 else s.reg j)) ∧
    (∃ t, execOp s raw (Opcode.ShiftLeft x) = CycleResult.ok t ∧
      (x ≠ 0xF → ∀ j, t.reg j = if j = 0xF then (s.reg x >>> 7) &&& 1
        else if j = x then (s.reg x <<< 1) % 256 else s.reg j) ∧
      (x = 0xF → ∀ j, t.reg j =
        if j = 0xF then (((s.reg 0xF >>> 7) &&& 1) <<< 1) % 256 else s.reg j)) := by
  refine ⟨⟨_, rfl, ?_⟩, ⟨_, rfl, ?_⟩, ⟨_, rfl, ?_⟩, ⟨_, rfl, ?_, ?_⟩, ⟨_, rfl, ?_, ?_⟩⟩
  · intro j
    dsimp only
    by_cases h1 : j = 0xF <;> by_cases h2 : j = x <;> simp_all [upd]
  · intro j
    dsimp only
    by_cases h1 : j = 0xF <;> by_cases h2 : j = x <;> simp_all [upd]
  · intro j
    dsimp only
    by_cases h1 : j = 0xF <;> by_cases h2 : j = x <;> simp_all [upd]
  · intro hx j
    dsimp only
    by_cases h1 : j = 0xF <;> by_cases h2 : j = x <;> simp_all [upd]
  · intro hx j
    subst hx
    dsimp only
    by_cases h1 : j = 0xF <;> simp_all [upd]
  · intro hx j
    dsimp only
    by_cases h1 : j = 0xF <;> by_cases h2 : j = x <;> simp_all [upd]
  · intro hx j
    subst hx
    dsimp only
    by_cases h1 : j = 0xF <;> simp_all [upd]

/-- Witness for the C5 amended theorem: the `x = 0xF` shift-right case at
`stateShrF`, where the stored value is the clobbered-flag shift. -/
theorem flag_ops_operand_order_witness :
    ∃ t, execOp stateShrF 0x8F06 (Opcode.ShiftRight 0xF) = CycleResult.ok t ∧
      t.reg 0xF = (stateShrF.reg 0xF &&& 1) >>> 1 := by
  obtain ⟨t, ht, hsp⟩ := (flag_ops_operand_order stateShrF 0x8F06 0xF 0).2.2.2.1
  refine ⟨t, ht, ?_⟩
  rw [hsp.2 rfl 0xF]
  simp

/-! ## C2: sprite drawing -/

theorem pix_def (vx vy dx dy : Nat) :
    pix vx vy dx dy =
      ((vy + dy) % VIDEO_HEIGHT) * VIDEO_WIDTH + (vx + dx) % VIDEO_WIDTH := rfl

open Classical in
theorem drawCols_spec (sprite vx vy dy : Nat) :
    ∀ fuel dx vf vid, dx + fuel ≤ 64 →
      (∀ p, (drawCols sprite vx vy dy dx fuel (vf, vid)).2 p =
        if ∃ j, dx ≤ j ∧ j < dx + fuel ∧ p = pix vx vy j dy ∧
            sprite &&& (128 >>> j) ≠ 0
        then xor (vid p) true else vid p) ∧
      (drawCols sprite vx vy dy dx fuel (vf, vid)).1 =
        (if ∃ j, dx ≤ j ∧ j < dx + fuel ∧ sprite &&& (128 >>> j) ≠ 0 ∧
            vid (pix vx vy j dy) = true
        then 1 else vf) := by
  intro fuel
  induction fuel with
  | zero =>
    intro dx vf vid _
    refine ⟨fun p => ?_, ?_⟩
    · rw [if_neg]
      · rfl
      · rintro ⟨j, h1, h2, -⟩
        omega
    · rw [if_neg]
      · rfl
      · rintro ⟨j, h1, h2, -⟩
        omega
  | succ fuel ih =>
    intro dx vf vid hle
    have hpix : ∀ j, dx + 1 ≤ j → j < dx + 1 + fuel →
        pix vx vy j dy ≠ pix vx vy dx dy := by
      intro j h1 h2 he
      unfold pix VIDEO_WIDTH VIDEO_HEIGHT at he
      omega
    simp only [drawCols, ← pix_def]
    by_cases hbit : sprite &&& (128 >>> dx) ≠ 0
    · rw [if_pos hbit]
      obtain ⟨ihv, ihf⟩ := ih (dx + 1)
        (if vid (pix vx vy dx dy) = true then 1 else vf)
        (upd vid (pix vx vy dx dy) (xor (vid (pix vx vy dx dy)) true)) (by omega)
      constructor
      · intro p
        rw [ihv p]
        by_cases hp : p = pix vx vy dx dy
        · subst hp
          rw [if_neg, if_pos, upd_self]
          · exact ⟨dx, Nat.le_refl dx, by omega, rfl, hbit⟩
          · rintro ⟨j, h1, h2, hj, -⟩
            exact hpix j h1 h2 hj.symm
        · rw [upd_ne _ _ _ _ hp]
          refine if_congr ⟨?_, ?_⟩ rfl rfl
          · rintro ⟨j, h1, h2, h3, h4⟩
            exact ⟨j, by omega, by omega, h3, h4⟩
          · rintro ⟨j, h1, h2, h3, h4⟩
            refine ⟨j, ?_, by omega, h3, h4⟩
            rcases Nat.eq_or_lt_of_le h1 with h | h
            · exact absurd h3 (h ▸ hp)
            · omega
      · rw [ihf]
        by_cases hlit : vid (pix vx vy dx dy) = true
        · have hfull : ∃ j, dx ≤ j ∧ j < dx + (fuel + 1) ∧
              sprite &&& (128 >>> j) ≠ 0 ∧ vid (pix vx vy j dy) = true :=
            ⟨dx, Nat.le_refl dx, by omega, hbit, hlit⟩
          rw [if_pos hfull]
          simp [hlit]
        · simp only [hlit, if_false]
          refine if_congr ⟨?_, ?_⟩ rfl rfl
          · rintro ⟨j, h1, h2, h3, h4⟩
            rw [upd_ne _ _ _ _ (hpix j h1 h2)] at h4
            exact ⟨j, by omega, by omega, h3, h4⟩
          · rintro ⟨j, h1, h2, h3, h4⟩
            have hj : dx + 1 ≤ j := by
              rcases Nat.eq_or_lt_of_le h1 with h | h
              · exact absurd (h ▸ h4) hlit
              · omega
            refine ⟨j, hj, by omega, h3, ?_⟩
            rw [upd_ne _ _ _ _ (hpix j hj (by omega))]
            exact h4
    · rw [if_neg hbit]
      obtain ⟨ihv, ihf⟩ := ih (dx + 1) vf vid (by omega)
      have hshift : ∀ (P : Nat → Prop), (∃ j, dx + 1 ≤ j ∧ j < dx + 1 + fuel ∧
          sprite &&& (128 >>> j) ≠ 0 ∧ P j) ↔
          (∃ j, dx ≤ j ∧ j < dx + (fuel + 1) ∧ sprite &&& (128 >>> j) ≠ 0 ∧ P j) := by
        intro P
        constructor
        · rintro ⟨j, h1, h2, h3, h4⟩
          exact ⟨j, by omega, by omega, h3, h4⟩
        · rintro ⟨j, h1, h2, h3, h4⟩
          refine ⟨j, ?_, by omega, h3, h4⟩
          rcases Nat.eq_or_lt_of_le h1 with h | h
          · exact absurd (h ▸ h3) (by simpa using hbit)
          · omega
      constructor
      · intro p
        rw [ihv p]
        refine if_congr ⟨?_, ?_⟩ rfl rfl
        · rintro ⟨j, h1, h2, h3, h4⟩
          exact ⟨j, by omega, by omega, h3, h4⟩
        · rintro ⟨j, h1, h2, h3, h4⟩
          refine ⟨j, ?_, by omega, h3, h4⟩
          rcases Nat.eq_or_lt_of_le h1 with h | h
          · exact absurd (h ▸ h4) (by simpa using hbit)
          · omega
      · rw [ihf]
        exact if_congr (hshift fun j => vid (pix vx vy j dy) = true) rfl rfl

open Classical in
theorem drawRows_spec (mem : Nat → Nat) (i vx vy : Nat) :
    ∀ fuel dy vf vid, dy + fuel ≤ 32 →
      (∀ r, dy ≤ r → r < dy + fuel → (i + r) % 65536 < 4096) →
      ∃ res, drawRows mem i vx vy dy fuel (vf, vid) = some res ∧
      (∀ p, res.2 p =
        if ∃ r, dy ≤ r ∧ r < dy + fuel ∧ ∃ j, j < 8 ∧ p = pix vx vy j r ∧
            mem ((i + r) % 65536) &&& (128 >>> j) ≠ 0
        then xor (vid p) true else vid p) ∧
      res.1 =
        (if ∃ r, dy ≤ r ∧ r < dy + fuel ∧ ∃ j, j < 8 ∧
            mem ((i + r) % 65536) &&& (128 >>> j) ≠ 0 ∧ vid (pix vx vy j r) = true
        then 1 else vf) := by
  intro fuel
  induction fuel with
  | zero =>
    intro dy vf vid _ _
    refine ⟨(vf, vid), rfl, fun p => ?_, ?_⟩
    · rw [if_neg]
      rintro ⟨r, h1, h2, -⟩
      omega
    · rw [if_neg]
      rintro ⟨r, h1, h2, -⟩
      omega
  | succ fuel ih =>
    intro dy vf vid hle hok
    have hrowpix : ∀ r j j2, dy + 1 ≤ r → r < dy + 1 + fuel → j < 8 → j2 < 8 →
        pix vx vy j r ≠ pix vx vy j2 dy := by
      intro r j j2 h1 h2 h3 h4 he
      unfold pix VIDEO_WIDTH VIDEO_HEIGHT at he
      omega
    obtain ⟨cv, cf⟩ := drawCols_spec (mem ((i + dy) % 65536)) vx vy dy 8 0 vf vid
      (by omega)
    simp only [drawRows, MEMORY_SIZE]
    rw [if_pos (hok dy (Nat.le_refl dy) (by omega))]
    obtain ⟨⟨vf1, vid1⟩, hcols⟩ :
        ∃ acc, drawCols (mem ((i + dy) % 65536)) vx vy dy 0 8 (vf, vid) = acc :=
      ⟨_, rfl⟩
    rw [hcols]
    have hv1 : ∀ p, vid1 p =
        if ∃ j, j < 8 ∧ p = pix vx vy j dy ∧
            mem ((i + dy) % 65536) &&& (128 >>> j) ≠ 0
        then xor (vid p) true else vid p := by
      intro p
      have hthis := cv p
      rw [hcols] at hthis
      dsimp only at hthis
      rw [hthis]
      refine if_congr ⟨?_, ?_⟩ rfl rfl
      · rintro ⟨j, h1, h2, h3, h4⟩
        exact ⟨j, by omega, h3, h4⟩
      · rintro ⟨j, h1, h2, h3⟩
        exact ⟨j, by omega, by omega, h2, h3⟩
    have hf1 : vf1 =
        if ∃ j, j < 8 ∧ mem ((i + dy) % 65536) &&& (128 >>> j) ≠ 0 ∧
            vid (pix vx vy j dy) = true
        then 1 else vf := by
      have hthis := cf
      rw [hcols] at hthis
      dsimp only at hthis
      rw [hthis]
      refine if_congr ⟨?_, ?_⟩ rfl rfl
      · rintro ⟨j, h1, h2, h3, h4⟩
        exact ⟨j, by omega, h3, h4⟩
      · rintro ⟨j, h1, h2, h3⟩
        exact ⟨j, by omega, by omega, h2, h3⟩
    obtain ⟨res, hres, ihv, ihf⟩ := ih (dy + 1) vf1 vid1 (by omega)
      (fun r h1 h2 => hok r (by omega) (by omega))
    refine ⟨res, hres, fun p => ?_, ?_⟩
    · rw [ihv p]
      by_cases hp : ∃ j, j < 8 ∧ p = pix vx vy j dy ∧
          mem ((i + dy) % 65536) &&& (128 >>> j) ≠ 0
      · obtain ⟨j2, hj2, hpj, hbitj⟩ := hp
        rw [if_neg, if_pos ⟨dy, Nat.le_refl dy, by omega, j2, hj2, hpj, hbitj⟩]
        · rw [hv1 p, if_pos ⟨j2, hj2, hpj, hbitj⟩]
        · rintro ⟨r, h1, h2, j, h3, h4, h5⟩
          exact hrowpix r j j2 h1 h2 h3 hj2 (h4 ▸ hpj ▸ rfl)
      · have hvp : vid1 p = vid p := by
          rw [hv1 p, if_neg hp]
        rw [hvp]
        refine if_congr ⟨?_, ?_⟩ rfl rfl
        · rintro ⟨r, h1, h2, hj⟩
          exact ⟨r, by omega, by omega, hj⟩
        · rintro ⟨r, h1, h2, hj⟩
          refine ⟨r, ?_, by omega, hj⟩
          rcases Nat.eq_or_lt_of_le h1 with h | h
          · subst h
            exact absurd hj hp
          · omega
    · rw [ihf]
      by_cases hcol : ∃ j, j < 8 ∧ mem ((i + dy) % 65536) &&& (128 >>> j) ≠ 0 ∧
          vid (pix vx vy j dy) = true
      · have hfull : ∃ r, dy ≤ r ∧ r < dy + (fuel + 1) ∧ ∃ j, j < 8 ∧
            mem ((i + r) % 65536) &&& (128 >>> j) ≠ 0 ∧
            vid (pix vx vy j r) = true := by
          obtain ⟨j, hj, hb, hl⟩ := hcol
          exact ⟨dy, Nat.le_refl dy, by omega, j, hj, hb, hl⟩
        rw [if_pos hfull, hf1, if_pos hcol]
        split <;> rfl
      · rw [hf1, if_neg hcol]
        refine if_congr ⟨?_, ?_⟩ rfl rfl
        · rintro ⟨r, h1, h2, j, h3, h4, h5⟩
          rw [hv1 _, if_neg] at h5
          · exact ⟨r, by omega, by omega, j, h3, h4, h5⟩
          · rintro ⟨j2, hj2, hpj, hbitj⟩
            exact hrowpix r j j2 h1 h2 h3 hj2 (hpj ▸ rfl)
        · rintro ⟨r, h1, h2, j, h3, h4, h5⟩
          have hr : dy + 1 ≤ r := by
            rcases Nat.eq_or_lt_of_le h1 with h | h
            · subst h
              exact absurd ⟨j, h3, h4, h5⟩ hcol
            · omega
          refine ⟨r, hr, by omega, j, h3, h4, ?_⟩
          rw [hv1 _, if_neg]
          · exact h5
          · rintro ⟨j2, hj2, hpj, hbitj⟩
            exact hrowpix r j j2 hr (by omega) h3 hj2 (hpj ▸ rfl)

open Classical in
/-- Claim C2: the sprite-draw arm reads `n` consecutive bytes from memory
starting at `I`, treats each byte as 8 pixels most-significant bit first,
and XORs each set sprite bit into the framebuffer cell at
`((Vx+dx) mod 64, (Vy+dy) mod 32)` — wrapped independently per pixel; `VF`
is reset at the start of the operation and ends 1 exactly when some XOR
turned an already-lit pixel off. -/
theorem sprite_draw_semantics (s : Chip8) (raw x y n : Nat)
    (hf : fetch_opcode s = some raw) (hd : decode_opcode raw = Opcode.Draw x y n)
    (hn : n < 16) (hi : s.i + n ≤ 4096) :
    ∃ s', cycle s = CycleResult.ok s' ∧
      (∀ X, X < 64 → ∀ Y, Y < 32 →
        s'.video (Y * 64 + X) =
          if SpriteHits s.mem s.i (s.reg x) (s.reg y) n X Y
          then xor (s.video (Y * 64 + X)) true else s.video (Y * 64 + X)) ∧
      s'.reg 0xF =
        (if SpriteCollides s.mem s.video s.i (s.reg x) (s.reg y) n then 1 else 0) ∧
      (∀ j, j ≠ 0xF → s'.reg j = s.reg j) := by
  have hmod : ∀ r, r < n → (s.i + r) % 65536 = s.i + r := by
    intro r hr
    exact Nat.mod_eq_of_lt (by omega)
  rw [cycle_eq hf, hd]
  simp only [execOp, advancePC]
  obtain ⟨⟨vf2, vid2⟩, hres, hvid, hvf⟩ :=
    drawRows_spec s.mem s.i (s.reg x) (s.reg y) n 0 0 s.video (by omega)
      (fun r h1 h2 => by rw [hmod r (by omega)]; omega)
  dsimp only at hvid hvf
  rw [hres]
  refine ⟨_, rfl, ?_, ?_, ?_⟩
  · intro X hX Y hY
    rw [tickTimers_video]
    dsimp only
    rw [hvid (Y * 64 + X)]
    refine if_congr ⟨?_, ?_⟩ rfl rfl
    · rintro ⟨r, h1, h2, j, h3, h4, h5⟩
      rw [hmod r (by omega)] at h5
      refine ⟨r, by omega, j, h3, ?_, ?_, h5⟩
      · rw [pix_def] at h4
        simp only [VIDEO_WIDTH, VIDEO_HEIGHT] at h4 ⊢
        omega
      · rw [pix_def] at h4
        simp only [VIDEO_WIDTH, VIDEO_HEIGHT] at h4 ⊢
        omega
    · rintro ⟨r, h1, j, h2, h3, h4, h5⟩
      refine ⟨r, by omega, by omega, j, h2, ?_, ?_⟩
      · rw [pix_def]
        simp only [VIDEO_WIDTH, VIDEO_HEIGHT] at h3 h4 ⊢
        omega
      · rw [hmod r h1]
        exact h5
  · rw [tickTimers_reg]
    dsimp only
    rw [upd_self, hvf]
    refine if_congr ⟨?_, ?_⟩ rfl rfl
    · rintro ⟨r, h1, h2, j, h3, h4, h5⟩
      rw [hmod r (by omega)] at h4
      exact ⟨r, by omega, j, h3, h4, h5⟩
    · rintro ⟨r, h1, j, h2, h3, h4⟩
      rw [← hmod r h1] at h3
      exact ⟨r, by omega, by omega, j, h2, h3, h4⟩
  · intro j hj
    rw [tickTimers_reg]
    dsimp only
    exact upd_ne _ _ _ _ hj

open Classical in
/-- Witness for C2: the 8x1 sprite `0xFF` drawn at `(63, 31)` on the
all-dark screen of `stateDraw`. -/
theorem sprite_draw_semantics_witness :
    ∃ s', cycle stateDraw = CycleResult.ok s' ∧
      (∀ X, X < 64 → ∀ Y, Y < 32 →
        s'.video (Y * 64 + X) =
          if SpriteHits stateDraw.mem stateDraw.i (stateDraw.reg 0) (stateDraw.reg 1)
              1 X Y
          then xor (stateDraw.video (Y * 64 + X)) true
          else stateDraw.video (Y * 64 + X)) ∧
      s'.reg 0xF =
        (if SpriteCollides stateDraw.mem stateDraw.video stateDraw.i
            (stateDraw.reg 0) (stateDraw.reg 1) 1 then 1 else 0) ∧
      (∀ j, j ≠ 0xF → s'.reg j = stateDraw.reg j) :=
  sprite_draw_semantics stateDraw 0xD011 0 1 1 (by decide) (by decide) (by decide)
    (by decide)

end Chip8Verif
